import Mathlib

/-!
Verification of the hyperedit local media-editing backend
(`scripts/local-ffmpeg-server.js`): a shallow embedding, over ℚ, of the
silence segmenter, the dead-air-removal handler, the project persistence
handlers, the render compiler, and the session-scoped endpoint guards,
together with proofs of the specified properties.
-/

namespace Hyperedit

/-- A closed time interval `{start, end}` in seconds, as produced by
`detectSilence` and `calculateKeepSegments`.  The source JS field `end`
is called `stop` here because `end` is a Lean keyword. -/
structure Segment where
  start : ℚ
  stop : ℚ
  deriving Repr, DecidableEq

/-- The loop body of `calculateKeepSegments` (source lines 206-225):
walks the silence list with the `lastEnd` accumulator, pushing the
complement segment `{lastEnd, silence.start}` whenever
`silence.start > lastEnd + minSegmentDuration`, and after the loop the
final segment `{lastEnd, totalDuration}` whenever
`lastEnd < totalDuration - minSegmentDuration`. -/
def keepLoop (silences : List Segment) (lastEnd totalDuration minSeg : ℚ) :
    List Segment :=
  match silences with
  | [] =>
      if lastEnd < totalDuration - minSeg then [⟨lastEnd, totalDuration⟩] else []
  | s :: rest =>
      (if lastEnd + minSeg < s.start then [⟨lastEnd, s.start⟩] else [])
        ++ keepLoop rest s.stop totalDuration minSeg

/-- `calculateKeepSegments(silencePeriods, totalDuration, minSegmentDuration = 0.1)`
(source lines 201-228): if no silence was detected, return the single
whole-duration segment; otherwise run the complement loop starting from
`lastEnd = 0`. -/
def calculateKeepSegments (silences : List Segment) (totalDuration : ℚ)
    (minSeg : ℚ := 1/10) : List Segment :=
  if silences.isEmpty then [⟨0, totalDuration⟩]
  else keepLoop silences 0 totalDuration minSeg

/-- A point `x` is covered by a list of closed segments. -/
def coveredBy (x : ℚ) (segs : List Segment) : Prop :=
  ∃ s ∈ segs, s.start ≤ x ∧ x ≤ s.stop

instance (x : ℚ) (segs : List Segment) : Decidable (coveredBy x segs) := by
  unfold coveredBy; infer_instance

/-- Well-formed silence input from `lastEnd` on: chronologically ordered,
non-overlapping, each interval non-degenerate, and starting no earlier
than `lastEnd`. -/
def SilProper (lastEnd : ℚ) : List Segment → Prop
  | [] => True
  | s :: rest => lastEnd ≤ s.start ∧ s.start ≤ s.stop ∧ SilProper s.stop rest

-- Every segment the loop emits is strictly longer than `minSeg`.
theorem keepLoop_length (silences : List Segment) (lastEnd T minSeg : ℚ) :
    ∀ k ∈ keepLoop silences lastEnd T minSeg, minSeg < k.stop - k.start := by
  induction silences generalizing lastEnd with
  | nil =>
      intro k hk
      simp only [keepLoop] at hk
      split at hk
      · rcases List.mem_singleton.mp hk with rfl
        simpa using by linarith
      · simp at hk
  | cons s rest ih =>
      intro k hk
      simp only [keepLoop, List.mem_append] at hk
      rcases hk with hk | hk
      · split at hk
        · rcases List.mem_singleton.mp hk with rfl
          simpa using by linarith
        · simp at hk
      · exact ih s.stop k hk

-- Every segment the loop emits starts no earlier than `lastEnd`.
theorem keepLoop_start_ge (silences : List Segment) (lastEnd T minSeg : ℚ)
    (hp : SilProper lastEnd silences) :
    ∀ k ∈ keepLoop silences lastEnd T minSeg, lastEnd ≤ k.start := by
  induction silences generalizing lastEnd with
  | nil =>
      intro k hk
      simp only [keepLoop] at hk
      split at hk
      · rcases List.mem_singleton.mp hk with rfl; simp
      · simp at hk
  | cons s rest ih =>
      intro k hk
      obtain ⟨h1, h2, hrest⟩ := hp
      simp only [keepLoop, List.mem_append] at hk
      rcases hk with hk | hk
      · split at hk
        · rcases List.mem_singleton.mp hk with rfl; simp
        · simp at hk
      · exact le_trans (le_trans h1 h2) (ih s.stop hrest k hk)

-- Every silence interval in a proper list starts no earlier than `lastEnd`.
theorem silProper_start_ge (silences : List Segment) (lastEnd : ℚ)
    (hp : SilProper lastEnd silences) :
    ∀ s ∈ silences, lastEnd ≤ s.start := by
  induction silences generalizing lastEnd with
  | nil => intro s hs; simp at hs
  | cons s rest ih =>
      obtain ⟨h1, h2, hrest⟩ := hp
      intro t ht
      rcases List.mem_cons.mp ht with rfl | ht
      · exact h1
      · exact le_trans (le_trans h1 h2) (ih s.stop hrest t ht)

-- Emitted segments are disjoint from every silence interval (they either
-- end before it starts or start after it ends).
theorem keepLoop_disjoint (silences : List Segment) (lastEnd T minSeg : ℚ)
    (hp : SilProper lastEnd silences) :
    ∀ k ∈ keepLoop silences lastEnd T minSeg, ∀ s ∈ silences,
      k.stop ≤ s.start ∨ s.stop ≤ k.start := by
  induction silences generalizing lastEnd with
  | nil => intro k _ s hs; simp at hs
  | cons s rest ih =>
      intro k hk t ht
      obtain ⟨h1, h2, hrest⟩ := hp
      simp only [keepLoop, List.mem_append] at hk
      rcases hk with hk | hk
      · split at hk
        · rcases List.mem_singleton.mp hk with rfl
          rcases List.mem_cons.mp ht with rfl | ht
          · left; simp
          · left
            simpa using le_trans h2 (silProper_start_ge rest s.stop hrest t ht)
        · simp at hk
      · rcases List.mem_cons.mp ht with heq | ht
        · subst heq
          right
          exact keepLoop_start_ge rest t.stop T minSeg hrest k hk
        · exact ih s.stop hrest k hk t ht

-- Coverage up to dropped gaps: any point of `[lastEnd, T]` covered neither
-- by an emitted segment nor by a silence interval lies at distance at most
-- `minSeg` above `lastEnd` or above some silence interval's end.
theorem keepLoop_cover (silences : List Segment) (lastEnd T minSeg : ℚ) :
    ∀ x, lastEnd ≤ x → x ≤ T →
      ¬ coveredBy x (keepLoop silences lastEnd T minSeg) →
      ¬ coveredBy x silences →
      ∃ b, (b = lastEnd ∨ ∃ s ∈ silences, b = s.stop) ∧ b ≤ x ∧ x - b ≤ minSeg := by
  induction silences generalizing lastEnd with
  | nil =>
      intro x hlx hxT hnk _
      refine ⟨lastEnd, Or.inl rfl, hlx, ?_⟩
      by_contra hgt
      push_neg at hgt
      apply hnk
      refine ⟨⟨lastEnd, T⟩, ?_, hlx, hxT⟩
      simp only [keepLoop]
      rw [if_pos (by linarith)]
      simp
  | cons s rest ih =>
      intro x hlx hxT hnk hns
      have hnk' : ¬ coveredBy x (keepLoop rest s.stop T minSeg) := by
        intro ⟨k, hk, hkx⟩
        exact hnk ⟨k, by simp only [keepLoop, List.mem_append]; exact Or.inr hk, hkx⟩
      have hns' : ¬ coveredBy x rest := by
        intro ⟨t, ht, htx⟩
        exact hns ⟨t, List.mem_cons_of_mem _ ht, htx⟩
      by_cases hxs : x ≤ s.start
      · -- x is at or before the first silence: it must lie in the dropped gap
        refine ⟨lastEnd, Or.inl rfl, hlx, ?_⟩
        by_contra hgt
        push_neg at hgt
        apply hnk
        refine ⟨⟨lastEnd, s.start⟩, ?_, hlx, hxs⟩
        simp only [keepLoop, List.mem_append]
        left
        rw [if_pos (by linarith)]
        simp
      · push_neg at hxs
        by_cases hxe : x ≤ s.stop
        · exact absurd ⟨s, List.mem_cons_self _ _, le_of_lt hxs, hxe⟩ hns
        · push_neg at hxe
          obtain ⟨b, hb, hbx, hbm⟩ := ih s.stop x (le_of_lt hxe) hxT hnk' hns'
          refine ⟨b, ?_, hbx, hbm⟩
          rcases hb with rfl | ⟨t, ht, rfl⟩
          · exact Or.inr ⟨s, List.mem_cons_self _ _, rfl⟩
          · exact Or.inr ⟨t, List.mem_cons_of_mem _ ht, rfl⟩

-- The loop's output is chronologically ordered (each segment ends no
-- later than the next one starts).
theorem keepLoop_chain (silences : List Segment) (lastEnd T minSeg : ℚ)
    (hp : SilProper lastEnd silences) :
    List.Chain' (fun a b => a.stop ≤ b.start)
      (keepLoop silences lastEnd T minSeg) := by
  induction silences generalizing lastEnd with
  | nil =>
      simp only [keepLoop]
      split <;> simp
  | cons s rest ih =>
      obtain ⟨h1, h2, hrest⟩ := hp
      simp only [keepLoop]
      split
      · refine List.chain'_cons'.mpr ⟨?_, ih s.stop hrest⟩
        intro k hk
        have := keepLoop_start_ge rest s.stop T minSeg hrest k (List.mem_of_mem_head? hk)
        simpa using le_trans h2 this
      · simpa using ih s.stop hrest

/-- C1 (counterexample): the claim's exact-cover conjunct is false.  With
`T = 100`, the single silence interval `{start: 1/20, stop: 50}` (ordered,
non-overlapping, within `[0,T]`) and the default `minSegmentSec = 1/10`,
`calculateKeepSegments` drops the short leading complement piece
`[0, 1/20]`, so the point `1/40 ∈ [0,T]` is covered neither by a returned
segment nor by a silence interval: the union has a gap. -/
theorem calculateKeepSegments_exact_cover_cex :
    calculateKeepSegments [⟨1/20, 50⟩] 100 (1/10) = [⟨50, 100⟩] ∧
    ¬ coveredBy (1/40) (calculateKeepSegments [⟨1/20, 50⟩] 100 (1/10)) ∧
    ¬ coveredBy (1/40) [⟨1/20, 50⟩] ∧
    (0 : ℚ) ≤ 1/40 ∧ (1/40 : ℚ) ≤ 100 := by
  have h : calculateKeepSegments [⟨1/20, 50⟩] 100 (1/10) = [⟨50, 100⟩] := by
    simp only [calculateKeepSegments, keepLoop, List.isEmpty_cons]
    norm_num
  refine ⟨h, ?_, ?_, by norm_num, by norm_num⟩
  · rw [h]
    simp only [coveredBy, List.mem_singleton]
    push_neg
    rintro s rfl
    norm_num
  · simp only [coveredBy, List.mem_singleton]
    push_neg
    rintro s rfl
    norm_num

/-- C1 (amended): for every total duration `T ≥ 0` and every
chronologically ordered list of non-overlapping silence intervals within
`[0,T]`, `calculateKeepSegments(silences, T, minSegmentSec)` returns a
chronologically ordered list of well-formed segments that is the
complement of the silence intervals, dropping any complement segment of
length `≤ minSegmentSec` (segments of length exactly `minSegmentSec` are
also dropped); when at least one silence interval is present every
returned segment has length strictly greater than `minSegmentSec`; every
returned segment is disjoint from every silence interval; and the union
of the returned segments with the silence intervals covers `[0,T]` except
for the dropped gaps — every uncovered point of `[0,T]` lies within
`minSegmentSec` above `0` or above some silence interval's end.  When no
silence is detected the single segment `[0,T]` is returned. -/
theorem calculateKeepSegments_complement_amended
    (silences : List Segment) (T minSeg : ℚ)
    (hm : 0 ≤ minSeg) (hT : 0 ≤ T)
    (hp : SilProper 0 silences) :
    List.Chain' (fun a b => a.stop ≤ b.start)
        (calculateKeepSegments silences T minSeg) ∧
    (∀ k ∈ calculateKeepSegments silences T minSeg, k.start ≤ k.stop) ∧
    (silences ≠ [] → ∀ k ∈ calculateKeepSegments silences T minSeg,
        minSeg < k.stop - k.start) ∧
    (∀ k ∈ calculateKeepSegments silences T minSeg, ∀ s ∈ silences,
        k.stop ≤ s.start ∨ s.stop ≤ k.start) ∧
    (∀ x, 0 ≤ x → x ≤ T →
        ¬ coveredBy x (calculateKeepSegments silences T minSeg) →
        ¬ coveredBy x silences →
        ∃ b, (b = 0 ∨ ∃ s ∈ silences, b = s.stop) ∧ b ≤ x ∧ x - b ≤ minSeg) ∧
    (silences = [] → calculateKeepSegments silences T minSeg = [⟨0, T⟩]) := by
  cases silences with
  | nil =>
      simp only [calculateKeepSegments, List.isEmpty_nil, if_pos]
      refine ⟨by simp, ?_, by simp, by simp, ?_, by simp⟩
      · intro k hk
        rcases List.mem_singleton.mp hk with rfl
        exact hT
      · intro x hx hxT hnk _
        exact absurd ⟨⟨0, T⟩, List.mem_singleton_self _, hx, hxT⟩ hnk
  | cons s rest =>
      have hne : ¬ (s :: rest : List Segment).isEmpty = true := by simp
      simp only [calculateKeepSegments, if_neg hne]
      refine ⟨keepLoop_chain _ 0 T minSeg hp, ?_, fun _ => keepLoop_length _ 0 T minSeg,
        keepLoop_disjoint _ 0 T minSeg hp, ?_, by simp⟩
      · intro k hk
        have := keepLoop_length _ 0 T minSeg k hk
        linarith
      · intro x hx hxT hnk hns
        exact keepLoop_cover _ 0 T minSeg x hx hxT hnk hns

/-- Witness for C1 (amended), at the spec's own example `T = 100`,
silences `[{10,15},{50,52}]`, `minSegmentSec = 1/10`: the hypotheses
hold, the computed keep list is `[{0,10},{15,50},{52,100}]`, and the
amended conclusions hold there. -/
theorem calculateKeepSegments_complement_amended_witness :
    (SilProper 0 [⟨10, 15⟩, ⟨50, 52⟩] ∧
      calculateKeepSegments [⟨10, 15⟩, ⟨50, 52⟩] 100 (1/10)
        = [⟨0, 10⟩, ⟨15, 50⟩, ⟨52, 100⟩]) ∧
    (∀ k ∈ calculateKeepSegments [⟨10, 15⟩, ⟨50, 52⟩] 100 (1/10),
        (1/10 : ℚ) < k.stop - k.start) ∧
    (∀ k ∈ calculateKeepSegments [⟨10, 15⟩, ⟨50, 52⟩] 100 (1/10),
        ∀ s ∈ [(⟨10, 15⟩ : Segment), ⟨50, 52⟩],
          k.stop ≤ s.start ∨ s.stop ≤ k.start) := by
  have hprop : SilProper 0 [(⟨10, 15⟩ : Segment), ⟨50, 52⟩] := by
    simp only [SilProper]
    norm_num
  have hmain := calculateKeepSegments_complement_amended
    [⟨10, 15⟩, ⟨50, 52⟩] 100 (1/10) (by norm_num) (by norm_num) hprop
  refine ⟨⟨hprop, ?_⟩, hmain.2.2.1 (by simp), hmain.2.2.2.1⟩
  simp only [calculateKeepSegments, keepLoop, List.isEmpty_cons]
  norm_num

/-! ## Dead-air removal handler (`handleSessionRemoveDeadAir`, lines 936-1044)

The handler is modelled as a pure function of the probed total duration,
the detected silence list, and a failure-injection point naming which
encoder invocation (if any) rejects and sends control to the `catch`
block.  The result records the response sent and the externally visible
effects: which segment-extraction calls ran, whether the concat pass ran,
whether the concat manifest was written/unlinked, how many segment files
were created/unlinked, and whether the session's working file was
replaced by the concatenation output. -/

/-- Which `runFFmpeg` call of the dead-air handler rejects (entering the
`catch` block); `none` means every call succeeds. -/
inductive DAFail where
  | seg (i : Nat)
  | concat
  deriving Repr, DecidableEq

/-- The JSON response of `handleSessionRemoveDeadAir`: the no-silence
short-circuit (lines 970-977), the success response (lines 1028-1036),
or the error response (lines 1041-1042). -/
inductive DAResponse where
  | noSilence (duration removedDuration : ℚ)
  | ok (duration originalDuration removedDuration : ℚ)
  | err
  deriving Repr, DecidableEq

/-- Externally visible outcome of one dead-air-removal request. -/
structure DAResult where
  response : DAResponse
  /-- keep segments for which a segment-extraction encode was invoked, in order -/
  segmentCalls : List Segment
  concatCalled : Bool
  manifestWritten : Bool
  /-- `unlinkSync(concatListPath)` was executed -/
  manifestDeleted : Bool
  /-- number of segment paths pushed onto `segmentPaths` -/
  segmentsCreated : Nat
  /-- number of segment paths unlinked before returning -/
  segmentsDeleted : Nat
  /-- the session's `current.mp4` was replaced by the concat output -/
  workingReplaced : Bool
  deriving Repr, DecidableEq

/-- Shallow embedding of `handleSessionRemoveDeadAir` after silence
detection: short-circuit when `silencePeriods.length === 0`; otherwise
compute keep segments (with the default `minSegmentDuration = 0.1`),
extract each, write the concat manifest, concatenate, replace the
working file, clean up.  The `catch` block (lines 1038-1043) unlinks
every pushed segment path but not the manifest. -/
def runDeadAir (T : ℚ) (silences : List Segment) (failAt : Option DAFail) :
    DAResult :=
  if silences.isEmpty then
    { response := .noSilence T 0, segmentCalls := [], concatCalled := false,
      manifestWritten := false, manifestDeleted := false,
      segmentsCreated := 0, segmentsDeleted := 0, workingReplaced := false }
  else
    let keep := calculateKeepSegments silences T
    let totalKept := (keep.map (fun s => s.stop - s.start)).sum
    let success : DAResult :=
      { response := .ok totalKept T (T - totalKept), segmentCalls := keep,
        concatCalled := true, manifestWritten := true, manifestDeleted := true,
        segmentsCreated := keep.length, segmentsDeleted := keep.length,
        workingReplaced := true }
    match failAt with
    | some (.seg i) =>
        if i < keep.length then
          -- path i was pushed before its extraction rejected; the catch
          -- block unlinks every pushed path and nothing else
          { response := .err, segmentCalls := keep.take (i + 1),
            concatCalled := false, manifestWritten := false,
            manifestDeleted := false, segmentsCreated := i + 1,
            segmentsDeleted := i + 1, workingReplaced := false }
        else success
    | some .concat =>
        { response := .err, segmentCalls := keep, concatCalled := true,
          manifestWritten := true, manifestDeleted := false,
          segmentsCreated := keep.length, segmentsDeleted := keep.length,
          workingReplaced := false }
    | none => success

/-- C3: a dead-air-removal request on a file with no detected silence
short-circuits: it reports the original duration as the result duration
with `removedDuration = 0`, performs no segment extraction and no
concatenation (regardless of any injected encoder failure), writes no
manifest, and leaves the working file unchanged. -/
theorem removeDeadAir_noSilence_skip (T : ℚ) (failAt : Option DAFail) :
    (runDeadAir T [] failAt).response = .noSilence T 0 ∧
    (runDeadAir T [] failAt).segmentCalls = [] ∧
    (runDeadAir T [] failAt).concatCalled = false ∧
    (runDeadAir T [] failAt).manifestWritten = false ∧
    (runDeadAir T [] failAt).workingReplaced = false := by
  refine ⟨rfl, rfl, rfl, rfl, rfl⟩

/-- C8 (counterexample): a dead-air removal that reaches segment
extraction (`T = 10`, one silence interval `{1,2}`) and then fails at the
concatenation step has written the concat manifest but does *not* delete
it before returning — the `catch` block only unlinks the segment files —
refuting the claim that the manifest is deleted on the failure path. -/
theorem removeDeadAir_manifest_not_deleted_cex :
    (runDeadAir 10 [⟨1, 2⟩] (some .concat)).segmentCalls ≠ [] ∧
    (runDeadAir 10 [⟨1, 2⟩] (some .concat)).manifestWritten = true ∧
    (runDeadAir 10 [⟨1, 2⟩] (some .concat)).manifestDeleted = false ∧
    (runDeadAir 10 [⟨1, 2⟩] (some .concat)).response = .err := by
  refine ⟨?_, rfl, rfl, rfl⟩
  show calculateKeepSegments [⟨1, 2⟩] 10 ≠ []
  have hkeep : calculateKeepSegments [⟨1, 2⟩] 10 = [⟨0, 1⟩, ⟨2, 10⟩] := by
    simp only [calculateKeepSegments, keepLoop, List.isEmpty_cons]
    norm_num
  rw [hkeep]
  simp

/-- C8 (amended): for every dead-air-removal operation that reaches the
segment-extraction step (some silence was detected), all intermediate
segment files are deleted before the operation returns on both the
success and the failure path; the concat manifest is deleted on the
success path but *not* on the failure path; and on success the session's
working file is replaced with the concatenation output. -/
theorem removeDeadAir_cleanup (T : ℚ) (silences : List Segment)
    (failAt : Option DAFail) (h : silences ≠ []) :
    (runDeadAir T silences failAt).segmentsDeleted
        = (runDeadAir T silences failAt).segmentsCreated ∧
    ((runDeadAir T silences failAt).response = .err →
        (runDeadAir T silences failAt).manifestDeleted = false ∧
        (runDeadAir T silences failAt).workingReplaced = false) ∧
    (∀ d od rd, (runDeadAir T silences failAt).response = .ok d od rd →
        (runDeadAir T silences failAt).manifestWritten = true ∧
        (runDeadAir T silences failAt).manifestDeleted = true ∧
        (runDeadAir T silences failAt).workingReplaced = true) := by
  have hne : ¬ silences.isEmpty = true := by
    simpa using h
  unfold runDeadAir
  rw [if_neg hne]
  rcases failAt with _ | f
  · simp
  · cases f with
    | seg i =>
        dsimp only
        split_ifs with hi
        · simp
        · simp
    | concat => simp

/-- Witness for C8 (amended): at `T = 10`, silences `[{1,2}]`, no injected
failure, the hypotheses hold and the success-path conclusions evaluate
as stated. -/
theorem removeDeadAir_cleanup_witness :
    ([(⟨1, 2⟩ : Segment)] ≠ ([] : List Segment)) ∧
    ((runDeadAir 10 [⟨1, 2⟩] none).segmentsDeleted
        = (runDeadAir 10 [⟨1, 2⟩] none).segmentsCreated ∧
      (∀ d od rd, (runDeadAir 10 [⟨1, 2⟩] none).response = .ok d od rd →
        (runDeadAir 10 [⟨1, 2⟩] none).manifestWritten = true ∧
        (runDeadAir 10 [⟨1, 2⟩] none).manifestDeleted = true ∧
        (runDeadAir 10 [⟨1, 2⟩] none).workingReplaced = true)) := by
  have h := removeDeadAir_cleanup 10 [⟨1, 2⟩] none (by simp)
  exact ⟨by simp, h.1, h.2.2⟩

/-! ## Timeline data model and the render compiler
(`handleProjectRender`, lines 1549-1721) -/

/-- A clip's optional visual transform `{x?, y?, scale?, opacity?}`. -/
structure Transform where
  x : Option ℚ := none
  y : Option ℚ := none
  scale : Option ℚ := none
  opacity : Option ℚ := none
  deriving Repr, DecidableEq

/-- A timeline clip as stored in `session.project.clips`. -/
structure Clip where
  id : String
  assetId : String
  trackId : String
  start : ℚ
  duration : ℚ
  inPoint : Option ℚ := none
  outPoint : Option ℚ := none
  transform : Option Transform := none
  deriving Repr, DecidableEq

/-- The asset fields the render compiler reads from `session.assets`. -/
structure Asset where
  id : String
  type : String
  path : String
  duration : ℚ
  deriving Repr, DecidableEq

/-- The session's asset table (`session.assets`, a `Map` keyed by id). -/
abbrev AssetTable := List (String × Asset)

/-- `session.assets.get(assetId)`. -/
def lookupAsset (assets : AssetTable) (assetId : String) : Option Asset :=
  (assets.find? (fun p => p.1 == assetId)).map (·.2)

/-- Project render settings (`session.project.settings`). -/
structure ProjectSettings where
  width : ℚ
  height : ℚ
  fps : ℚ
  deriving Repr, DecidableEq

/-- JavaScript `a || b` on an optionally-present number: `undefined` and
`0` are both falsy, so either yields `b`. -/
def jsOr (a : Option ℚ) (b : ℚ) : ℚ :=
  match a with
  | none => b
  | some q => if q = 0 then b else q

/-- `trackOrder[a.trackId] || 0` against the fixed table
`{ V1: 0, V2: 1, V3: 2 }` (line 1579): unknown tracks (and `V1`, whose
entry `0` is falsy) give `0`. -/
def trackOrder (trackId : String) : Nat :=
  if trackId = "V2" then 1 else if trackId = "V3" then 2 else 0

/-- `session.assets.get(c.assetId)?.type === 'audio'` — `false` when the
asset is missing (optional chaining yields `undefined`). -/
def isAudioClip (assets : AssetTable) (c : Clip) : Bool :=
  match lookupAsset assets c.assetId with
  | some a => a.type == "audio"
  | none => false

/-- Stable insertion of a clip into a key-sorted list: the new clip goes
before the first clip whose key is not smaller than its own, so clips
with equal keys keep their original relative order. -/
def stableInsert (key : Clip → Nat) (c : Clip) : List Clip → List Clip
  | [] => [c]
  | d :: ds =>
      if key c ≤ key d then c :: d :: ds else d :: stableInsert key c ds

/-- Stable sort by key.  `Array.prototype.sort` with the numeric
comparator of line 1578 is a stable sort (required since ES2019), and
every stable sort by the same key produces the same list, so insertion
sort is an exact model of it. -/
def stableSortByKey (key : Clip → Nat) : List Clip → List Clip
  | [] => []
  | c :: cs => stableInsert key c (stableSortByKey key cs)

theorem mem_stableInsert (key : Clip → Nat) (c a : Clip) (l : List Clip) :
    a ∈ stableInsert key c l ↔ a = c ∨ a ∈ l := by
  induction l with
  | nil => simp [stableInsert]
  | cons d ds ih =>
      simp only [stableInsert]
      split
      · simp [List.mem_cons]
      · simp only [List.mem_cons, ih]
        tauto

theorem mem_stableSortByKey (key : Clip → Nat) (a : Clip) (l : List Clip) :
    a ∈ stableSortByKey key l ↔ a ∈ l := by
  induction l with
  | nil => simp [stableSortByKey]
  | cons c cs ih => simp [stableSortByKey, mem_stableInsert, ih]

/-- Video-bearing clips (line 1576-1581): any clip whose asset is not
audio-typed — clips with a *missing* asset are kept here and skipped in
the loop — stably sorted by track order. -/
def videoClipsOf (assets : AssetTable) (clips : List Clip) : List Clip :=
  stableSortByKey (fun c => trackOrder c.trackId)
    (clips.filter (fun c => !(isAudioClip assets c)))

/-- Audio-bearing clips (lines 1583-1584). -/
def audioClipsOf (assets : AssetTable) (clips : List Clip) : List Clip :=
  clips.filter (fun c => isAudioClip assets c)

/-- `Math.max(...clips.map(c => c.start + c.duration), 0.1)` (lines
1587-1590). -/
def totalDurationOf (clips : List Clip) : ℚ :=
  (clips.map (fun c => c.start + c.duration)).foldl max (1/10)

/-- An overlay coordinate expression: either a numeric value
(interpolated from `clip.transform.x`/`.y`) or the centering expression
`(W-w)/2` resp. `(H-h)/2`. -/
inductive PosExpr where
  | px (q : ℚ)
  | centered
  deriving Repr, DecidableEq

/-- `clip.transform?.x || '(W-w)/2'` (line 1636): the centering string
when the transform or `x` is absent, or when `x` is `0` (falsy). -/
def overlayXOf (c : Clip) : PosExpr :=
  match c.transform with
  | none => .centered
  | some t =>
      match t.x with
      | none => .centered
      | some q => if q = 0 then .centered else .px q

/-- `clip.transform?.y || '(H-h)/2'` (line 1637). -/
def overlayYOf (c : Clip) : PosExpr :=
  match c.transform with
  | none => .centered
  | some t =>
      match t.y with
      | none => .centered
      | some q => if q = 0 then .centered else .px q

/-- The extra `,scale=iw*s:ih*s` appended when the destructured
`scale` (defaulting to `1` only for `undefined`) differs from `1`
(lines 1625-1628). -/
def extraScaleOf (c : Clip) : Option ℚ :=
  match c.transform with
  | none => none
  | some t =>
      let s := t.scale.getD 1
      if s ≠ 1 then some s else none

/-- The encoder's `overlay` filter places the overlaid frame's top-left
corner at the given coordinate; the centering expression evaluates to
`(canvas - dim)/2`.  (Semantics of the external encoder's `overlay`
filter, specified at its interface boundary.) -/
def evalPos (canvas dim : ℚ) : PosExpr → ℚ
  | .px q => q
  | .centered => (canvas - dim) / 2

/-- One element of the `filterParts` array (lines 1594-1666), as a typed
stage descriptor. -/
inductive FilterPart where
  /-- `color=black:s=WxH:d=D:r=FPS[base]` (line 1598) -/
  | colorBase (w h d r : ℚ)
  /-- `[idx:v]trim=inPoint:outPoint,setpts=PTS-STARTPTS,scale=w:h:force_original_aspect_ratio=decrease,pad=w:h:(ow-iw)/2:(oh-ih)/2` plus the optional
  `,scale=iw*s:ih*s`, labelled `[v idx]` (lines 1614-1633) -/
  | clipChain (idx : Nat) (inPoint outPoint w h : ℚ) (extraScale : Option ℚ)
  /-- `[bg][v idx]overlay=x=X:y=Y:enable=between(t,fromT,toT)[out idx]`
  (line 1640) -/
  | overlay (bg : String) (idx : Nat) (x y : PosExpr) (fromT toT : ℚ)
  /-- `[src]copy[vout]` (line 1645) -/
  | copyOut (src : String)
  /-- `[idx:a]atrim=inPoint:outPoint,asetpts=PTS-STARTPTS,adelay=ms|ms[a idx]`
  (line 1660) -/
  | audioChain (idx : Nat) (inPoint outPoint : ℚ) (delayMs : ℤ)
  /-- `[a j1][a j2]...amix=inputs=n[aout]` (lines 1665-1666) -/
  | amix (labels : List Nat) (n : Nat)
  deriving Repr, DecidableEq

/-- The per-video-clip loop (lines 1602-1642): a clip whose asset is
missing is skipped (`continue`, line 1604) — no `-i` input, no filter
stages, no index bump; otherwise emit the input path, the trim/scale/pad
chain and the overlay onto the running composite, and advance
`inputIndex` and `lastVideo`. -/
def videoLoop (assets : AssetTable) (settings : ProjectSettings)
    (clips : List Clip) (idx : Nat) (lastV : String) :
    List String × List FilterPart × String × Nat :=
  match clips with
  | [] => ([], [], lastV, idx)
  | c :: rest =>
      match lookupAsset assets c.assetId with
      | none => videoLoop assets settings rest idx lastV
      | some a =>
          let inP := jsOr c.inPoint 0
          let outP := jsOr c.outPoint a.duration
          let trimDur := outP - inP
          let chain := FilterPart.clipChain idx inP outP settings.width
            settings.height (extraScaleOf c)
          let ov := FilterPart.overlay lastV idx (overlayXOf c) (overlayYOf c)
            c.start (c.start + trimDur)
          let next := videoLoop assets settings rest (idx + 1)
            ("out" ++ toString idx)
          (a.path :: next.1, chain :: ov :: next.2.1, next.2.2.1, next.2.2.2)

/-- The per-audio-clip loop (lines 1651-1661): same skip for missing
assets; emits the input path, the atrim/adelay chain labelled by the
current `inputIndex`, with `adelay` of `Math.floor(start * 1000)` ms. -/
def audioLoop (assets : AssetTable) (clips : List Clip) (idx : Nat) :
    List String × List FilterPart × Nat :=
  match clips with
  | [] => ([], [], idx)
  | c :: rest =>
      match lookupAsset assets c.assetId with
      | none => audioLoop assets rest idx
      | some a =>
          let inP := jsOr c.inPoint 0
          let outP := jsOr c.outPoint a.duration
          let ms := ⌊c.start * 1000⌋
          let next := audioLoop assets rest (idx + 1)
          (a.path :: next.1, FilterPart.audioChain idx inP outP ms :: next.2.1,
            next.2.2)

/-- The `amix` input labels (line 1665):
`clips.indexOf(audioClips[i]) + videoClips.length` for each audio clip.
(JS `indexOf` uses reference identity; for an element taken from `clips`
this is its first position, modelled with structural equality.) -/
def amixLabels (clips : List Clip) (videoClipsLen : Nat)
    (audioClips : List Clip) : List Nat :=
  audioClips.map (fun c => clips.indexOf c + videoClipsLen)

/-- The compiled render pipeline: the `-i` input paths, the
`filter_complex` stage list, whether `[aout]` is mapped, and the computed
total duration (which is both the reported `duration` and the `-t` cap). -/
structure RenderPlan where
  inputs : List String
  filterParts : List FilterPart
  audioMapped : Bool
  totalDuration : ℚ
  preview : Bool
  deriving Repr, DecidableEq

/-- `ffmpegArgs.push('-t', totalDuration.toString())` (line 1694). -/
def renderTCap (p : RenderPlan) : ℚ := p.totalDuration

/-- The `duration` field of the success response (line 1712). -/
def renderResponseDuration (p : RenderPlan) : ℚ := p.totalDuration

/-- The compile phase of `handleProjectRender` (lines 1563-1695): reject
an empty clip list before anything else; otherwise partition and sort
clips, compute the total duration over *all* clips, build the synthetic
base layer, run the video and audio loops, and append the audio mix when
any audio chain was emitted. -/
def renderCompile (assets : AssetTable) (settings : ProjectSettings)
    (clips : List Clip) (isPreview : Bool) : Except String RenderPlan :=
  if clips.isEmpty then .error "No clips in timeline"
  else
    let videoClips := videoClipsOf assets clips
    let audioClips := audioClipsOf assets clips
    let totalDuration := totalDurationOf clips
    let base := FilterPart.colorBase settings.width settings.height
      totalDuration settings.fps
    let v := videoLoop assets settings videoClips 0 "base"
    let a := audioLoop assets audioClips v.2.2.2
    let hasAudio := !a.2.1.isEmpty
    let audioParts :=
      if hasAudio then
        a.2.1 ++ [FilterPart.amix (amixLabels clips videoClips.length audioClips)
          a.2.1.length]
      else []
    .ok { inputs := v.1 ++ a.1
        , filterParts := base :: v.2.1 ++ [FilterPart.copyOut v.2.2.1] ++ audioParts
        , audioMapped := hasAudio
        , totalDuration := totalDuration
        , preview := isPreview }

/-- The handler's observable outcome: the HTTP status with the error
payload (if any), and the encoder invocations performed (one per
successfully compiled plan; none when validation fails, since the
`return` at line 1569 precedes every `runFFmpeg`). -/
def handleProjectRender (assets : AssetTable) (settings : ProjectSettings)
    (clips : List Clip) (isPreview : Bool) :
    (Nat × Option String) × List RenderPlan :=
  match renderCompile assets settings clips isPreview with
  | .error e => ((400, some e), [])
  | .ok p => ((200, none), [p])

/-- C6: for every render request against a project whose clip list is
empty, `handleProjectRender` responds with the validation error
`"No clips in timeline"` (HTTP 400) and performs no encoder invocation
at all — the early `return` precedes every `runFFmpeg` call. -/
theorem render_empty_clips_validation (assets : AssetTable)
    (settings : ProjectSettings) (isPreview : Bool) :
    handleProjectRender assets settings [] isPreview
      = ((400, some "No clips in timeline"), []) := rfl

/-- Replace the opacity of a clip's transform (a no-op for clips without
a transform). -/
def setOpacity (c : Clip) (o : Option ℚ) : Clip :=
  match c.transform with
  | none => c
  | some t => { c with transform := some { t with opacity := o } }

theorem setOpacity_assetId (c : Clip) (o : Option ℚ) :
    (setOpacity c o).assetId = c.assetId := by
  unfold setOpacity; cases c.transform <;> rfl

theorem setOpacity_inPoint (c : Clip) (o : Option ℚ) :
    (setOpacity c o).inPoint = c.inPoint := by
  unfold setOpacity; cases c.transform <;> rfl

theorem setOpacity_outPoint (c : Clip) (o : Option ℚ) :
    (setOpacity c o).outPoint = c.outPoint := by
  unfold setOpacity; cases c.transform <;> rfl

theorem setOpacity_start (c : Clip) (o : Option ℚ) :
    (setOpacity c o).start = c.start := by
  unfold setOpacity; cases c.transform <;> rfl

theorem overlayXOf_setOpacity (c : Clip) (o : Option ℚ) :
    overlayXOf (setOpacity c o) = overlayXOf c := by
  cases h : c.transform <;> simp [setOpacity, overlayXOf, h]

theorem overlayYOf_setOpacity (c : Clip) (o : Option ℚ) :
    overlayYOf (setOpacity c o) = overlayYOf c := by
  cases h : c.transform <;> simp [setOpacity, overlayYOf, h]

theorem extraScaleOf_setOpacity (c : Clip) (o : Option ℚ) :
    extraScaleOf (setOpacity c o) = extraScaleOf c := by
  cases h : c.transform <;> simp [setOpacity, extraScaleOf, h]

/-- C4: the render compiler drops `transform.opacity`.  Replacing the
opacity of every clip's transform by *any* value (including removing it)
leaves the compiled video pipeline — input list, trim/scale/pad chains,
and every overlay compositing stage — exactly unchanged, so opacity is
never realized through the compositing step, contradicting the claim
(and the source's own comment `Opacity is handled in overlay`,
line 1629). -/
theorem render_opacity_dropped (assets : AssetTable)
    (settings : ProjectSettings) (clips : List Clip) (o : Option ℚ)
    (idx : Nat) (lastV : String) :
    videoLoop assets settings (clips.map (fun c => setOpacity c o)) idx lastV
      = videoLoop assets settings clips idx lastV := by
  induction clips generalizing idx lastV with
  | nil => rfl
  | cons c rest ih =>
      simp only [List.map_cons, videoLoop, setOpacity_assetId,
        setOpacity_inPoint, setOpacity_outPoint, setOpacity_start,
        overlayXOf_setOpacity, overlayYOf_setOpacity, extraScaleOf_setOpacity]
      cases lookupAsset assets c.assetId with
      | none => exact ih idx lastV
      | some a => simp only [ih]

/-- C5 counterexample clip: a transform with `x = 100`, `y = 50`. -/
def posCexClip : Clip :=
  { id := "c1", assetId := "a1", trackId := "V2", start := 0, duration := 5,
    transform := some { x := some 100, y := some 50 } }

/-- C5 (counterexample): for a clip whose transform has `x = 100` (canvas
width 1920, overlaid frame width 400), the compiler emits the absolute
coordinate expression `x=100`, which places the overlay's top-left corner
at `100` — not at the centered position plus the offset (`860`), refuting
the claim that `transform.x`/`transform.y` are applied as pixel offsets
from center. -/
theorem overlay_position_absolute_cex :
    overlayXOf posCexClip = .px 100 ∧
    overlayYOf posCexClip = .px 50 ∧
    evalPos 1920 400 (overlayXOf posCexClip) = 100 ∧
    evalPos 1920 400 PosExpr.centered + 100 = 860 ∧
    evalPos 1920 400 (overlayXOf posCexClip)
      ≠ evalPos 1920 400 PosExpr.centered + 100 := by
  refine ⟨?_, ?_, ?_, ?_, ?_⟩ <;>
    norm_num [posCexClip, overlayXOf, overlayYOf, evalPos]

/-- C5 (amended): the overlay position defaults to centered when the clip
has no transform or when `transform.x` / `transform.y` is absent or `0`
(falsy); a nonzero `transform.x` / `transform.y` is applied as the
*absolute* overlay coordinate (top-left corner position), not as an
offset from the centered position. -/
theorem overlay_position_amended (c : Clip) :
    (c.transform = none → overlayXOf c = .centered ∧ overlayYOf c = .centered) ∧
    (∀ t, c.transform = some t → (t.x = none ∨ t.x = some 0) →
      overlayXOf c = .centered) ∧
    (∀ t, c.transform = some t → (t.y = none ∨ t.y = some 0) →
      overlayYOf c = .centered) ∧
    (∀ t q, c.transform = some t → t.x = some q → q ≠ 0 →
      overlayXOf c = .px q) ∧
    (∀ t q, c.transform = some t → t.y = some q → q ≠ 0 →
      overlayYOf c = .px q) := by
  refine ⟨?_, ?_, ?_, ?_, ?_⟩
  · intro h; rw [overlayXOf, overlayYOf, h]; exact ⟨rfl, rfl⟩
  · intro t ht hx
    rcases hx with hx | hx <;> simp [overlayXOf, ht, hx]
  · intro t ht hy
    rcases hy with hy | hy <;> simp [overlayYOf, ht, hy]
  · intro t q ht hq hne
    simp [overlayXOf, ht, hq, hne]
  · intro t q ht hq hne
    simp [overlayYOf, ht, hq, hne]

/-- A clip with no transform at all (for the C5 witness). -/
def noTransformClip : Clip :=
  { id := "c0", assetId := "a0", trackId := "V1", start := 0, duration := 3 }

/-- Witness for C5 (amended): the no-transform clip composites centered,
and `posCexClip`'s nonzero `x = 100` / `y = 50` come out as absolute
coordinates. -/
theorem overlay_position_amended_witness :
    overlayXOf noTransformClip = .centered ∧
    overlayXOf posCexClip = .px 100 ∧
    overlayYOf posCexClip = .px 50 := by
  refine ⟨((overlay_position_amended noTransformClip).1 rfl).1, ?_, ?_⟩
  · exact (overlay_position_amended posCexClip).2.2.2.1
      ⟨some 100, some 50, none, none⟩ 100 rfl rfl (by norm_num)
  · exact (overlay_position_amended posCexClip).2.2.2.2
      ⟨some 100, some 50, none, none⟩ 50 rfl rfl (by norm_num)

-- Skipping a missing-asset clip leaves the video loop's entire output
-- (inputs, stages, label, index) unchanged: the loop on any clip list
-- equals the loop on the list restricted to clips with existing assets.
theorem videoLoop_skips_missing (assets : AssetTable)
    (settings : ProjectSettings) :
    ∀ (clips : List Clip) (idx : Nat) (lastV : String),
      videoLoop assets settings clips idx lastV
        = videoLoop assets settings
            (clips.filter (fun c => (lookupAsset assets c.assetId).isSome))
            idx lastV := by
  intro clips
  induction clips with
  | nil => intro idx lastV; rfl
  | cons c rest ih =>
      intro idx lastV
      cases hl : lookupAsset assets c.assetId with
      | none =>
          rw [List.filter_cons_of_neg (by simp [hl])]
          simp only [videoLoop, hl]
          exact ih idx lastV
      | some a =>
          rw [List.filter_cons_of_pos (by simp [hl])]
          simp only [videoLoop, hl]
          simp only [ih]

-- Same for the audio loop.
theorem audioLoop_skips_missing (assets : AssetTable) :
    ∀ (clips : List Clip) (idx : Nat),
      audioLoop assets clips idx
        = audioLoop assets
            (clips.filter (fun c => (lookupAsset assets c.assetId).isSome)) idx := by
  intro clips
  induction clips with
  | nil => intro idx; rfl
  | cons c rest ih =>
      intro idx
      cases hl : lookupAsset assets c.assetId with
      | none =>
          rw [List.filter_cons_of_neg (by simp [hl])]
          simp only [audioLoop, hl]
          exact ih idx
      | some a =>
          rw [List.filter_cons_of_pos (by simp [hl])]
          simp only [audioLoop, hl]
          simp only [ih]

-- Every `-i` input the video loop emits is the path of an existing asset
-- referenced by some clip of its input list.
theorem videoLoop_inputs_sourced (assets : AssetTable)
    (settings : ProjectSettings) :
    ∀ (clips : List Clip) (idx : Nat) (lastV : String),
      ∀ path ∈ (videoLoop assets settings clips idx lastV).1,
        ∃ c ∈ clips, ∃ a, lookupAsset assets c.assetId = some a ∧
          path = a.path := by
  intro clips
  induction clips with
  | nil => intro idx lastV path hp; simp [videoLoop] at hp
  | cons c rest ih =>
      intro idx lastV path hp
      cases hl : lookupAsset assets c.assetId with
      | none =>
          simp only [videoLoop, hl] at hp
          obtain ⟨c', hc', ha⟩ := ih idx lastV path hp
          exact ⟨c', List.mem_cons_of_mem _ hc', ha⟩
      | some a =>
          simp only [videoLoop, hl] at hp
          rcases List.mem_cons.mp hp with rfl | hp
          · exact ⟨c, List.mem_cons_self _ _, a, hl, rfl⟩
          · obtain ⟨c', hc', ha⟩ := ih _ _ path hp
            exact ⟨c', List.mem_cons_of_mem _ hc', ha⟩

-- Same for the audio loop.
theorem audioLoop_inputs_sourced (assets : AssetTable) :
    ∀ (clips : List Clip) (idx : Nat),
      ∀ path ∈ (audioLoop assets clips idx).1,
        ∃ c ∈ clips, ∃ a, lookupAsset assets c.assetId = some a ∧
          path = a.path := by
  intro clips
  induction clips with
  | nil => intro idx path hp; simp [audioLoop] at hp
  | cons c rest ih =>
      intro idx path hp
      cases hl : lookupAsset assets c.assetId with
      | none =>
          simp only [audioLoop, hl] at hp
          obtain ⟨c', hc', ha⟩ := ih idx path hp
          exact ⟨c', List.mem_cons_of_mem _ hc', ha⟩
      | some a =>
          simp only [audioLoop, hl] at hp
          rcases List.mem_cons.mp hp with rfl | hp
          · exact ⟨c, List.mem_cons_self _ _, a, hl, rfl⟩
          · obtain ⟨c', hc', ha⟩ := ih _ path hp
            exact ⟨c', List.mem_cons_of_mem _ hc', ha⟩

-- For a nonempty clip list the compile phase always succeeds, with the
-- compiled inputs and total duration as constructed.
theorem renderCompile_ok (assets : AssetTable) (settings : ProjectSettings)
    (clips : List Clip) (isPreview : Bool) (h : ¬ clips.isEmpty = true) :
    ∃ p, renderCompile assets settings clips isPreview = .ok p ∧
      p.inputs
        = (videoLoop assets settings (videoClipsOf assets clips) 0 "base").1
          ++ (audioLoop assets (audioClipsOf assets clips)
              (videoLoop assets settings (videoClipsOf assets clips) 0
                "base").2.2.2).1 ∧
      p.totalDuration = totalDurationOf clips := by
  unfold renderCompile
  rw [if_neg h]
  exact ⟨_, rfl, rfl, rfl⟩

/-- C7: a clip whose referenced asset is missing from the session's asset
table never makes the compile phase fail (for a nonempty clip list the
compiled plan always exists), contributes no `-i` input — every input
path belongs to an existing asset referenced by some clip — and
contributes no filter stage: both per-clip loops produce, on any clip
list, exactly the output they produce on the sublist of clips whose
assets exist. -/
theorem render_stale_clips_skipped (assets : AssetTable)
    (settings : ProjectSettings) (clips : List Clip) (isPreview : Bool)
    (h : clips ≠ []) :
    (∃ p, renderCompile assets settings clips isPreview = .ok p ∧
        ∀ path ∈ p.inputs, ∃ c ∈ clips, ∃ a,
          lookupAsset assets c.assetId = some a ∧ path = a.path) ∧
    (∀ (cs : List Clip) (idx : Nat) (lastV : String),
        videoLoop assets settings cs idx lastV
          = videoLoop assets settings
              (cs.filter (fun c => (lookupAsset assets c.assetId).isSome))
              idx lastV) ∧
    (∀ (cs : List Clip) (idx : Nat),
        audioLoop assets cs idx
          = audioLoop assets
              (cs.filter (fun c => (lookupAsset assets c.assetId).isSome))
              idx) := by
  have hne : ¬ clips.isEmpty = true := by simpa using h
  refine ⟨?_, videoLoop_skips_missing assets settings,
    audioLoop_skips_missing assets⟩
  obtain ⟨p, hok, hin, _⟩ := renderCompile_ok assets settings clips isPreview hne
  refine ⟨p, hok, ?_⟩
  intro path hp
  rw [hin] at hp
  rcases List.mem_append.mp hp with hp | hp
  · obtain ⟨c, hc, ha⟩ := videoLoop_inputs_sourced assets settings _ 0 "base" path hp
    refine ⟨c, ?_, ha⟩
    rw [videoClipsOf, mem_stableSortByKey] at hc
    exact List.mem_of_mem_filter hc
  · obtain ⟨c, hc, ha⟩ := audioLoop_inputs_sourced assets _ _ path hp
    refine ⟨c, ?_, ha⟩
    exact List.mem_of_mem_filter hc

-- `foldl max` bounds, used for the total-duration characterization.
theorem foldl_max_init_le (l : List ℚ) (init : ℚ) :
    init ≤ l.foldl max init := by
  induction l generalizing init with
  | nil => simp
  | cons x xs ih => exact le_trans (le_max_left init x) (ih (max init x))

theorem mem_le_foldl_max (l : List ℚ) (init : ℚ) :
    ∀ x ∈ l, x ≤ l.foldl max init := by
  induction l generalizing init with
  | nil => simp
  | cons y ys ih =>
      intro x hx
      rcases List.mem_cons.mp hx with rfl | hx
      · exact le_trans (le_max_right init x) (foldl_max_init_le ys (max init x))
      · exact ih (max init y) x hx

theorem foldl_max_cases (l : List ℚ) (init : ℚ) :
    l.foldl max init = init ∨ ∃ x ∈ l, l.foldl max init = x := by
  induction l generalizing init with
  | nil => exact Or.inl rfl
  | cons y ys ih =>
      have hstep : (y :: ys).foldl max init = ys.foldl max (max init y) := rfl
      rcases ih (max init y) with hh | ⟨x, hx, hfe⟩
      · rcases le_total init y with hiy | hiy
        · right
          refine ⟨y, List.mem_cons_self _ _, ?_⟩
          rw [hstep, hh, max_eq_right hiy]
        · left
          rw [hstep, hh, max_eq_left hiy]
      · right
        exact ⟨x, List.mem_cons_of_mem _ hx, by rw [hstep, hfe]⟩

-- `Math.max(...clips.map(c => c.start + c.duration), 0.1)` is an upper
-- bound of `start + duration` over all clips, is at least the 0.1 floor,
-- and is attained by the floor or by some clip.
theorem totalDurationOf_spec (clips : List Clip) :
    (1/10 : ℚ) ≤ totalDurationOf clips ∧
    (∀ c ∈ clips, c.start + c.duration ≤ totalDurationOf clips) ∧
    (totalDurationOf clips = 1/10 ∨
      ∃ c ∈ clips, totalDurationOf clips = c.start + c.duration) := by
  unfold totalDurationOf
  refine ⟨foldl_max_init_le _ _, ?_, ?_⟩
  · intro c hc
    exact mem_le_foldl_max _ _ _ (List.mem_map_of_mem _ hc)
  · rcases foldl_max_cases (clips.map (fun c => c.start + c.duration)) (1/10)
      with hh | ⟨x, hx, he⟩
    · exact Or.inl hh
    · right
      obtain ⟨c, hc, rfl⟩ := List.mem_map.mp hx
      exact ⟨c, hc, he⟩

/-- C10: for every nonempty clip list, the compiled plan's total duration
is the maximum of `start + duration` over *all* clips of the project —
stale clips with deleted assets included, since `totalDurationOf` never
consults the asset table — with a `0.1` floor: it is at least `0.1`, an
upper bound for every clip (in particular a skipped stale clip still
extends it), and attained by the floor or by some clip; it is also
exactly the encoder's `-t` cap and the reported response duration. -/
theorem render_totalDuration_all_clips (assets : AssetTable)
    (settings : ProjectSettings) (clips : List Clip) (isPreview : Bool)
    (h : clips ≠ []) :
    ∃ p, renderCompile assets settings clips isPreview = .ok p ∧
      p.totalDuration = totalDurationOf clips ∧
      (1/10 : ℚ) ≤ p.totalDuration ∧
      (∀ c ∈ clips, c.start + c.duration ≤ p.totalDuration) ∧
      (p.totalDuration = 1/10 ∨
        ∃ c ∈ clips, p.totalDuration = c.start + c.duration) ∧
      renderTCap p = p.totalDuration ∧
      renderResponseDuration p = p.totalDuration := by
  have hne : ¬ clips.isEmpty = true := by simpa using h
  obtain ⟨p, hok, _hin, hdur⟩ := renderCompile_ok assets settings clips isPreview hne
  obtain ⟨h1, h2, h3⟩ := totalDurationOf_spec clips
  refine ⟨p, hok, hdur, ?_, ?_, ?_, rfl, rfl⟩
  · rw [hdur]; exact h1
  · intro c hc; rw [hdur]; exact h2 c hc
  · rw [hdur]; exact h3

/-- Concrete witness data: one existing video asset, one clip referencing
it, and one stale clip referencing a deleted asset. -/
def wAsset : Asset :=
  { id := "a1", type := "video", path := "sessions/s/assets/a1.mp4",
    duration := 8 }

def wAssets : AssetTable := [("a1", wAsset)]

def wSettings : ProjectSettings := { width := 1920, height := 1080, fps := 30 }

def wGoodClip : Clip :=
  { id := "c1", assetId := "a1", trackId := "V1", start := 0, duration := 5 }

def wStaleClip : Clip :=
  { id := "c2", assetId := "gone", trackId := "V2", start := 2, duration := 10 }

def wClips : List Clip := [wGoodClip, wStaleClip]

/-- Witness for C7 at the concrete session above: compilation succeeds
and every compiled input is the existing asset's path. -/
theorem render_stale_clips_skipped_witness :
    (wClips ≠ []) ∧
    (∃ p, renderCompile wAssets wSettings wClips false = .ok p ∧
        ∀ path ∈ p.inputs, ∃ c ∈ wClips, ∃ a,
          lookupAsset wAssets c.assetId = some a ∧ path = a.path) := by
  have hne : wClips ≠ [] := by simp [wClips]
  exact ⟨hne, (render_stale_clips_skipped wAssets wSettings wClips false hne).1⟩

/-- Witness for C10 at the same session: the stale clip (start 2,
duration 10) extends the total duration to 12 even though its asset is
gone, and the compiled plan carries exactly that duration. -/
theorem render_totalDuration_all_clips_witness :
    (wClips ≠ []) ∧
    totalDurationOf wClips = 12 ∧
    (∃ p, renderCompile wAssets wSettings wClips false = .ok p ∧
        p.totalDuration = totalDurationOf wClips) := by
  have hne : wClips ≠ [] := by simp [wClips]
  obtain ⟨p, hok, hdur, _⟩ :=
    render_totalDuration_all_clips wAssets wSettings wClips false hne
  refine ⟨hne, ?_, p, hok, hdur⟩
  show ([wGoodClip, wStaleClip].map
    (fun c => c.start + c.duration)).foldl max (1/10) = 12
  norm_num [wGoodClip, wStaleClip, List.foldl, max_def]

/-- The audio-chain labels `[a idx]` defined by the compiled stages. -/
def audioChainLabels (parts : List FilterPart) : List Nat :=
  parts.filterMap fun p =>
    match p with
    | .audioChain i _ _ _ => some i
    | _ => none

/-- The labels referenced by the compiled `amix` stages. -/
def amixRefs (parts : List FilterPart) : List Nat :=
  (parts.filterMap fun p =>
    match p with
    | .amix ls _ => some ls
    | _ => none).flatten

/-- The audio part of the graph is well formed when every label the
`amix` stage consumes was defined by an emitted audio chain; the external
encoder rejects a `filter_complex` referencing an undefined label, so a
violation makes the encoder invocation fail. -/
def audioGraphWellFormed (p : RenderPlan) : Prop :=
  ∀ l ∈ amixRefs p.filterParts, l ∈ audioChainLabels p.filterParts

instance (p : RenderPlan) : Decidable (audioGraphWellFormed p) := by
  unfold audioGraphWellFormed; infer_instance

/-- An audio asset and clip, plus the stale video clip, for the C7
counterexample. -/
def c7Audio : Asset :=
  { id := "au", type := "audio", path := "sessions/s/assets/au.mp3",
    duration := 6 }

def c7Assets : AssetTable := [("a1", wAsset), ("au", c7Audio)]

def c7AudioClip : Clip :=
  { id := "c3", assetId := "au", trackId := "A1", start := 0, duration := 6 }

def c7ClipsOk : List Clip := [c7AudioClip, wGoodClip]

def c7ClipsStale : List Clip := [c7AudioClip, wGoodClip, wStaleClip]

/-- C7 (counterexample): a stale clip *can* make the render fail.  With
an audio clip and one existing video clip the compiled audio graph is
well formed (`amix` consumes exactly the emitted `[a1]`), but adding a
clip whose asset was deleted shifts the `amix` input labels — line 1665
computes them from `clips.indexOf(...) + videoClips.length`, and
`videoClips` still counts the skipped stale clip — so the `amix` stage
references label `2` while only chain `1` is emitted: the filter graph
has a dangling label reference and the encoder invocation fails. -/
theorem render_stale_breaks_audio_graph_cex :
    (∃ p, renderCompile c7Assets wSettings c7ClipsOk false = .ok p ∧
        audioGraphWellFormed p) ∧
    (∃ p, renderCompile c7Assets wSettings c7ClipsStale false = .ok p ∧
        ¬ audioGraphWellFormed p) := by
  constructor
  · refine ⟨_, rfl, ?_⟩
    decide
  · refine ⟨_, rfl, ?_⟩
    decide

/-! ## Session-scoped endpoint guards and session destruction
(router lines 2696-2766 and the handler heads) -/

/-- The live-session table: the ids present in the `sessions` map. -/
abbrev SessionTable := List String

/-- `sessions.get(sessionId)` succeeds. -/
def sessionKnown (tbl : SessionTable) (id : String) : Bool := tbl.contains id

/-- What the head of a session-scoped handler does before any
endpoint-specific work. -/
inductive GuardResult where
  /-- `404 {error: 'Session not found'}` -/
  | notFound
  /-- the handler proceeds with the session -/
  | proceed
  /-- `200 {success: true}` unconditionally (`handleSessionDelete`) -/
  | deleteOk
  deriving Repr, DecidableEq

/-- The session-scoped endpoints of the router (lines 2696-2766). -/
inductive SessionEndpoint where
  | stream | info | download | process | removeDeadAir | chapters
  | delete
  | assetUpload | assetList | assetDelete | assetThumbnail | assetStream
  | projectGet | projectPut | render | renderDownload
  | createGif | transcribe | transcribeAndExtract | renderMotionGraphic
  deriving Repr, DecidableEq

/-- The session-lookup head of every session-scoped handler: each one
starts with `const session = getSession(sessionId); if (!session) {
404 'Session not found' }` (lines 795-799, 842-846, 1146-1150, 871-875,
936-940, 1047-1051, 1231-1235, 1334-1338, 1358-1362, 1394-1398,
1423-1427, 1499-1503, 1516-1520, 1549-1553, 1724-1728, 1770-1774,
2209-2213, 2489-2493, 2579-2583) — except `handleSessionDelete`
(lines 1177-1181), which never looks the session up and unconditionally
responds `{success: true}`. -/
def sessionGuard (e : SessionEndpoint) (tbl : SessionTable) (id : String) :
    GuardResult :=
  match e with
  | .delete => .deleteOk
  | .stream => if sessionKnown tbl id then .proceed else .notFound
  | .info => if sessionKnown tbl id then .proceed else .notFound
  | .download => if sessionKnown tbl id then .proceed else .notFound
  | .process => if sessionKnown tbl id then .proceed else .notFound
  | .removeDeadAir => if sessionKnown tbl id then .proceed else .notFound
  | .chapters => if sessionKnown tbl id then .proceed else .notFound
  | .assetUpload => if sessionKnown tbl id then .proceed else .notFound
  | .assetList => if sessionKnown tbl id then .proceed else .notFound
  | .assetDelete => if sessionKnown tbl id then .proceed else .notFound
  | .assetThumbnail => if sessionKnown tbl id then .proceed else .notFound
  | .assetStream => if sessionKnown tbl id then .proceed else .notFound
  | .projectGet => if sessionKnown tbl id then .proceed else .notFound
  | .projectPut => if sessionKnown tbl id then .proceed else .notFound
  | .render => if sessionKnown tbl id then .proceed else .notFound
  | .renderDownload => if sessionKnown tbl id then .proceed else .notFound
  | .createGif => if sessionKnown tbl id then .proceed else .notFound
  | .transcribe => if sessionKnown tbl id then .proceed else .notFound
  | .transcribeAndExtract => if sessionKnown tbl id then .proceed else .notFound
  | .renderMotionGraphic => if sessionKnown tbl id then .proceed else .notFound

/-- `cleanupSession` (lines 91-103): when the id is present, remove the
directory subtree and forget the binding (`Map` keys are unique, so
`sessions.delete(id)` removes the id entirely, modelled by `filter`);
an unknown id is a no-op. -/
def cleanupSession (tbl : SessionTable) (id : String) : SessionTable :=
  if id ∈ tbl then tbl.filter (fun s => s ≠ id) else tbl

/-- C9 (counterexample): `DELETE /session/{id}` on an id absent from the
session table does *not* fail with a not-found error — the handler never
calls `getSession` and always responds `{success: true}` — refuting the
claim that every session-scoped endpoint (in particular DELETE) fails
with not-found for unknown ids. -/
theorem sessionDelete_no_notFound_cex :
    sessionKnown [] "gone" = false ∧
    sessionGuard .delete [] "gone" = .deleteOk ∧
    sessionGuard .delete [] "gone" ≠ .notFound := by
  exact ⟨rfl, rfl, by decide⟩

/-- C9 (amended): every session-scoped endpoint *except*
`DELETE /session/{id}` fails with a not-found error whenever the session
id is not in the session table (including ids of expired or destroyed
sessions); `DELETE` instead always reports success, and the underlying
destroy operation is idempotent: destroying an already-destroyed (or
never-existing) session is a no-op. -/
theorem session_guard_amended (e : SessionEndpoint) (tbl : SessionTable)
    (id : String) (hu : sessionKnown tbl id = false) (hne : e ≠ .delete) :
    sessionGuard e tbl id = .notFound ∧
    sessionGuard .delete tbl id = .deleteOk ∧
    cleanupSession (cleanupSession tbl id) id = cleanupSession tbl id := by
  refine ⟨?_, rfl, ?_⟩
  · cases e <;> first
      | exact absurd rfl hne
      | simp [sessionGuard, hu]
  · unfold cleanupSession
    by_cases hc : id ∈ tbl
    · have hnot : id ∉ tbl.filter (fun s => decide (s ≠ id)) := by
        intro hmem
        have := (List.mem_filter.mp hmem).2
        simp at this
      rw [if_pos hc, if_neg hnot]
    · rw [if_neg hc, if_neg hc]

/-- Witness for C9 (amended): the info endpoint on an unknown id returns
not-found, DELETE still succeeds, and destroying twice equals destroying
once. -/
theorem session_guard_amended_witness :
    sessionKnown [] "gone" = false ∧
    sessionGuard .info [] "gone" = .notFound ∧
    sessionGuard .delete [] "gone" = .deleteOk ∧
    cleanupSession (cleanupSession [] "gone") "gone"
      = cleanupSession [] "gone" := by
  have h := session_guard_amended .info [] "gone" rfl (by decide)
  exact ⟨rfl, h.1, h.2.1, h.2.2⟩

/-! ## Project persistence (`handleProjectSave`, lines 1516-1546, and
`createSession`'s project state, lines 56-68)

`handleProjectSave` merges the incoming `{tracks?, clips?, settings?}`
into `session.project` and writes `JSON.stringify(session.project)` to
`<sessionDir>/project.json`.  JSON values are modelled by `JValue`;
`JSON.stringify` omits `undefined` (absent optional) fields. -/

/-- A timeline track (`{id, type, name, order}`, lines 58-60). -/
structure Track where
  id : String
  type : String
  name : String
  order : ℚ
  deriving Repr, DecidableEq

/-- The project state `{tracks, clips, settings}` (lines 56-68). -/
structure Project where
  tracks : List Track
  clips : List Clip
  settings : ProjectSettings
  deriving Repr, DecidableEq

/-- A JSON value. -/
inductive JValue where
  | null
  | bool (b : Bool)
  | num (q : ℚ)
  | str (s : String)
  | arr (elems : List JValue)
  | obj (fields : List (String × JValue))
  deriving Repr

/-- Object field lookup. -/
def jGet (fields : List (String × JValue)) (key : String) : Option JValue :=
  (fields.find? (fun p => p.1 == key)).map (·.2)

/-- A present numeric field. -/
def jNum (fields : List (String × JValue)) (key : String) : Option ℚ :=
  match jGet fields key with
  | some (.num q) => some q
  | _ => none

/-- A present string field. -/
def jStr (fields : List (String × JValue)) (key : String) : Option String :=
  match jGet fields key with
  | some (.str s) => some s
  | _ => none

/-- An optional numeric field: absent is fine (`some none`), present
non-numeric is a decode failure. -/
def jOptNum (fields : List (String × JValue)) (key : String) :
    Option (Option ℚ) :=
  match jGet fields key with
  | none => some none
  | some (.num q) => some (some q)
  | some _ => none

/-- Serialize an optional numeric field the way `JSON.stringify` does:
omitted when absent. -/
def jPutOptNum (key : String) (v : Option ℚ) : List (String × JValue) :=
  match v with
  | none => []
  | some q => [(key, .num q)]

def encodeTransform (t : Transform) : JValue :=
  .obj (jPutOptNum "x" t.x ++ jPutOptNum "y" t.y
    ++ jPutOptNum "scale" t.scale ++ jPutOptNum "opacity" t.opacity)

def decodeTransform : JValue → Option Transform
  | .obj fs => do
      let x ← jOptNum fs "x"
      let y ← jOptNum fs "y"
      let scale ← jOptNum fs "scale"
      let opacity ← jOptNum fs "opacity"
      pure ⟨x, y, scale, opacity⟩
  | _ => none

def encodeClip (c : Clip) : JValue :=
  .obj ([("id", .str c.id), ("assetId", .str c.assetId),
    ("trackId", .str c.trackId), ("start", .num c.start),
    ("duration", .num c.duration)]
    ++ jPutOptNum "inPoint" c.inPoint ++ jPutOptNum "outPoint" c.outPoint
    ++ (match c.transform with
        | none => []
        | some t => [("transform", encodeTransform t)]))

def decodeClip : JValue → Option Clip
  | .obj fs => do
      let id ← jStr fs "id"
      let assetId ← jStr fs "assetId"
      let trackId ← jStr fs "trackId"
      let start ← jNum fs "start"
      let duration ← jNum fs "duration"
      let inPoint ← jOptNum fs "inPoint"
      let outPoint ← jOptNum fs "outPoint"
      let transform ←
        match jGet fs "transform" with
        | none => some none
        | some v => (decodeTransform v).map some
      pure ⟨id, assetId, trackId, start, duration, inPoint, outPoint, transform⟩
  | _ => none

def encodeTrack (t : Track) : JValue :=
  .obj [("id", .str t.id), ("type", .str t.type), ("name", .str t.name),
    ("order", .num t.order)]

def decodeTrack : JValue → Option Track
  | .obj fs => do
      let id ← jStr fs "id"
      let type ← jStr fs "type"
      let name ← jStr fs "name"
      let order ← jNum fs "order"
      pure ⟨id, type, name, order⟩
  | _ => none

def encodeSettings (s : ProjectSettings) : JValue :=
  .obj [("width", .num s.width), ("height", .num s.height),
    ("fps", .num s.fps)]

def decodeSettings : JValue → Option ProjectSettings
  | .obj fs => do
      let width ← jNum fs "width"
      let height ← jNum fs "height"
      let fps ← jNum fs "fps"
      pure ⟨width, height, fps⟩
  | _ => none

def decodeListWith (f : JValue → Option α) : List JValue → Option (List α)
  | [] => some []
  | v :: vs => do
      let a ← f v
      let rest ← decodeListWith f vs
      pure (a :: rest)

/-- `JSON.stringify(session.project)` (line 1535): the serialized
`{tracks, clips, settings}` structure. -/
def encodeProject (p : Project) : JValue :=
  .obj [("tracks", .arr (p.tracks.map encodeTrack)),
    ("clips", .arr (p.clips.map encodeClip)),
    ("settings", encodeSettings p.settings)]

/-- Modelled from the spec: the `load()` half of §4.5's
`save()/load()` — no code under `src/` ever reads `project.json` back,
so the reader is taken from the spec's words: it parses the project
descriptor file and "can reconstruct it verbatim" as the
`{tracks, clips, settings}` structure. -/
def loadProject : JValue → Option Project
  | .obj fs => do
      let tracks ←
        match jGet fs "tracks" with
        | some (.arr ts) => decodeListWith decodeTrack ts
        | _ => none
      let clips ←
        match jGet fs "clips" with
        | some (.arr cs) => decodeListWith decodeClip cs
        | _ => none
      let settings ←
        match jGet fs "settings" with
        | some v => decodeSettings v
        | _ => none
      pure ⟨tracks, clips, settings⟩
  | _ => none

/-- A partial settings object, as `data.settings` may carry any subset
of the keys. -/
structure PartialSettings where
  width : Option ℚ := none
  height : Option ℚ := none
  fps : Option ℚ := none
  deriving Repr, DecidableEq

/-- `{...session.project.settings, ...data.settings}` (line 1531):
incoming keys override, missing keys keep the current value. -/
def mergeSettings (old : ProjectSettings) (incoming : PartialSettings) :
    ProjectSettings :=
  { width := incoming.width.getD old.width
  , height := incoming.height.getD old.height
  , fps := incoming.fps.getD old.fps }

/-- The body of a `PUT /session/{id}/project` request. -/
structure SaveRequest where
  tracks : Option (List Track) := none
  clips : Option (List Clip) := none
  settings : Option PartialSettings := none

/-- `handleProjectSave` (lines 1529-1535): assign incoming `tracks` and
`clips` when present (JS truthiness — arrays, even empty ones, are
truthy), merge `settings`, then persist `JSON.stringify(session.project)`
to `project.json`.  Returns the new in-memory project and the JSON
written to disk. -/
def applyProjectSave (current : Project) (data : SaveRequest) :
    Project × JValue :=
  let p1 := match data.tracks with
    | some ts => { current with tracks := ts }
    | none => current
  let p2 := match data.clips with
    | some cs => { p1 with clips := cs }
    | none => p1
  let p3 := match data.settings with
    | some s => { p2 with settings := mergeSettings p2.settings s }
    | none => p2
  (p3, encodeProject p3)

theorem decodeTransform_encodeTransform (t : Transform) :
    decodeTransform (encodeTransform t) = some t := by
  obtain ⟨x, y, s, o⟩ := t
  cases x <;> cases y <;> cases s <;> cases o <;> rfl

theorem decodeClip_encodeClip (c : Clip) :
    decodeClip (encodeClip c) = some c := by
  obtain ⟨id, aid, tid, st, du, ip, op, tr⟩ := c
  rcases tr with _ | t
  · cases ip <;> cases op <;> rfl
  · obtain ⟨x, y, s, o⟩ := t
    cases ip <;> cases op <;> cases x <;> cases y <;> cases s <;> cases o <;>
      rfl

theorem decodeTrack_encodeTrack (t : Track) :
    decodeTrack (encodeTrack t) = some t := rfl

theorem decodeSettings_encodeSettings (s : ProjectSettings) :
    decodeSettings (encodeSettings s) = some s := rfl

theorem decodeListWith_map (f : JValue → Option α) (enc : α → JValue)
    (h : ∀ a, f (enc a) = some a) (l : List α) :
    decodeListWith f (l.map enc) = some l := by
  induction l with
  | nil => rfl
  | cons a as ih =>
      simp only [List.map_cons, decodeListWith, h a, ih, Option.bind_eq_bind,
        Option.some_bind]
      rfl

/-- C2: round-trip persistence.  Saving a full `{tracks, clips,
settings}` structure stores exactly that structure in the session
(merging a full settings record replaces it), serializes it to the
project descriptor, and loading the serialized descriptor reconstructs
the structure verbatim, field for field — for every project, whatever
the number of tracks and clips and whatever the previous state. -/
theorem project_save_load_roundtrip (current p : Project) :
    (applyProjectSave current
        ⟨some p.tracks, some p.clips,
          some ⟨some p.settings.width, some p.settings.height,
            some p.settings.fps⟩⟩).1 = p ∧
    (∀ q : Project, loadProject (encodeProject q) = some q) ∧
    loadProject (applyProjectSave current
        ⟨some p.tracks, some p.clips,
          some ⟨some p.settings.width, some p.settings.height,
            some p.settings.fps⟩⟩).2 = some p := by
  have hdec : ∀ q : Project, loadProject (encodeProject q) = some q := by
    intro q
    obtain ⟨ts, cs, st⟩ := q
    simp [loadProject, jGet, encodeProject,
      decodeListWith_map decodeTrack encodeTrack decodeTrack_encodeTrack,
      decodeListWith_map decodeClip encodeClip decodeClip_encodeClip,
      decodeSettings_encodeSettings]
  have hstate : (applyProjectSave current
      ⟨some p.tracks, some p.clips,
        some ⟨some p.settings.width, some p.settings.height,
          some p.settings.fps⟩⟩).1 = p := by
    simp only [applyProjectSave, mergeSettings, Option.getD_some]
  refine ⟨hstate, hdec, ?_⟩
  show loadProject (encodeProject _) = _
  rw [hdec]
  exact congrArg some hstate

end Hyperedit
